import Mathlib

/-! Shallow embedding of the trust-rank core of mboard (src/mboard/views.py):
graph building from posts and ratings, the propagation wrapper, the TTL
cache gate, rank persistence, content annotation and filtering, and the
vote endpoint.  Sessions and posts are identified by opaque natural
numbers; timestamps are integer seconds; ranks are rationals and votes
are integers.
-/

namespace Mboard

abbrev SessionId := Nat
abbrev PostId := Nat

/-- A post row: identifier, creating session, and optional parent thread
(`none` means the post is itself a top-level thread). -/
structure Post where
  id : PostId
  session : SessionId
  thread : Option PostId
deriving DecidableEq, Repr

/-- A Rating row keyed by (user, target).  `rank` is nullable (read back
through a coalescing annotation); `vote` is an integer.
The concrete field defaults used on row creation are modelled from the
spec: mboard/models.py is not in src/; spec §4.6 says entries are created
with vote = 0, and §4.4 says an unset rank coalesces to zero on read, so
a fresh row carries `vote := 0` and `rank := none`. -/
structure Rating where
  user : SessionId
  target : PostId
  rank : Option ℚ
  vote : ℤ
deriving DecidableEq, Repr

/-- views.py line 26. -/
def POST_TO_USER_VOTE : ℤ := 77777

/-- views.py line 32. -/
def MINIMAL_AUTHOR_VOTE : ℤ := 1

/-- views.py line 36. -/
def NEGATIVE_VOTE_AMPLIFICATION_COEFFICIENT : ℤ := 10

/-- views.py line 40. -/
def SHADOWBAN_THRESHOLD : ℚ := -1/100

/-- A node of the trust graph: a session (actor) or a post (content). -/
inductive GNode where
  | user (s : SessionId)
  | post (p : PostId)
deriving DecidableEq, Repr

/-- A directed weighted edge, as stored by networkx: (source, target, weight). -/
abbrev Edge := GNode × GNode × ℤ

/-- Does edge `e` run from `u` to `v`? -/
def ekey (u v : GNode) (e : Edge) : Bool := decide (e.1 = u ∧ e.2.1 = v)

/-- networkx `G.add_edge(u, v, weight=w)`: overwrites the weight when the
edge already exists, otherwise appends a fresh edge. -/
def addEdge (es : List Edge) (u v : GNode) (w : ℤ) : List Edge :=
  if es.any (ekey u v) then
    es.map (fun e => if ekey u v e then (u, v, w) else e)
  else
    es ++ [(u, v, w)]

/-- Weight of the edge from `u` to `v`, if present. -/
def edgeW (es : List Edge) (u v : GNode) : Option ℤ :=
  (es.find? (ekey u v)).map (fun e => e.2.2)

/-- views.py line 68: `node.vote if node.vote >= 0.0 else
node.vote * NEGATIVE_VOTE_AMPLIFICATION_COEFFICIENT`. -/
def voteWeight (v : ℤ) : ℤ :=
  if 0 ≤ v then v else v * NEGATIVE_VOTE_AMPLIFICATION_COEFFICIENT

/-- views.py lines 59-62: each post contributes a Post -> Author edge of
weight `POST_TO_USER_VOTE` and an Author -> Post edge of weight
`MINIMAL_AUTHOR_VOTE`. -/
def addPostEdges (es : List Edge) (p : Post) : List Edge :=
  addEdge (addEdge es (GNode.post p.id) (GNode.user p.session) POST_TO_USER_VOTE)
    (GNode.user p.session) (GNode.post p.id) MINIMAL_AUTHOR_VOTE

/-- views.py lines 66-68: each Rating row contributes a User -> Post edge
weighted by `voteWeight`; it can overwrite the default author edge. -/
def addRatingEdge (es : List Edge) (r : Rating) : List Edge :=
  addEdge es (GNode.user r.user) (GNode.post r.target) (voteWeight r.vote)

/-- views.py lines 54-68: the graph build inside `refresh_rank` — first
all post edges, then all rating edges. -/
def buildGraph (posts : List Post) (ratings : List Rating) : List Edge :=
  ratings.foldl addRatingEdge (posts.foldl addPostEdges [])

/-- Node set of the graph in insertion order (networkx `G.nodes()`),
deduplicated. -/
def insertNode (ns : List GNode) (n : GNode) : List GNode :=
  if n ∈ ns then ns else ns ++ [n]

/-- All nodes occurring as a source or target of some edge. -/
def graphNodes (es : List Edge) : List GNode :=
  es.foldl (fun ns e => insertNode (insertNode ns e.1) e.2.1) []

/-- views.py lines 83-90 (`calc_rep`): for every graph node other than
the seed, record the score computed by the propagation routine.  `BL_PHT`
lives in libs/meritrank (outside views.py), so its `compute` method is an
explicit parameter; `calc_rep` itself only shapes the result mapping. -/
def calc_rep (compute : GNode → GNode → ℚ) (graph : List Edge) (seed : GNode) :
    List (GNode × ℚ) :=
  (graphNodes graph).filterMap
    (fun n => if n = seed then none else some (n, compute seed n))

/-- Does Rating row `r` have key (u, t)? -/
def ratingKey (u : SessionId) (t : PostId) (r : Rating) : Bool :=
  decide (r.user = u ∧ r.target = t)

/-- First Rating row with key (u, t), like a Django `.get`/`Subquery`
on the unique (user, target) pair. -/
def findRating (rs : List Rating) (u : SessionId) (t : PostId) : Option Rating :=
  rs.find? (ratingKey u t)

/-- The vote field of the (u, t) row, if the row exists. -/
def voteOf (rs : List Rating) (u : SessionId) (t : PostId) : Option ℤ :=
  (findRating rs u t).map Rating.vote

/-- The rank field of the (u, t) row, if the row exists. -/
def rankOf (rs : List Rating) (u : SessionId) (t : PostId) : Option (Option ℚ) :=
  (findRating rs u t).map Rating.rank

/-- The vote field of the (u, t) row, or 0 when the row is absent. -/
def voteOrZero (rs : List Rating) (u : SessionId) (t : PostId) : ℤ :=
  ((findRating rs u t).map Rating.vote).getD 0

/-- The (user, target) keys of the rating table are pairwise distinct —
the Django unique-pair upsert invariant. -/
def RatingsUnique (rs : List Rating) : Prop :=
  rs.Pairwise (fun a b => ¬(a.user = b.user ∧ a.target = b.target))

/-- Overwrite the rank field of the first row with key (u, t). -/
def setRankFirst : List Rating → SessionId → PostId → ℚ → List Rating
  | [], _, _, _ => []
  | r :: rest, u, t, rk =>
    if ratingKey u t r then Rating.mk r.user r.target (some rk) r.vote :: rest
    else r :: setRankFirst rest u t rk

/-- Overwrite the vote field of the first row with key (u, t). -/
def setVoteFirst : List Rating → SessionId → PostId → ℤ → List Rating
  | [], _, _, _ => []
  | r :: rest, u, t, v =>
    if ratingKey u t r then Rating.mk r.user r.target r.rank v :: rest
    else r :: setVoteFirst rest u t v

/-- views.py lines 76-78: `Rating.objects.update_or_create(user=user,
target=target, defaults=: rank)` — update the rank of the existing
(u, t) row, or insert a fresh row carrying that rank. -/
def update_or_create_rank (rs : List Rating) (u : SessionId) (t : PostId) (rk : ℚ) :
    List Rating :=
  if (findRating rs u t).isSome then setRankFirst rs u t rk
  else rs ++ [Rating.mk u t (some rk) 0]

/-- views.py lines 71-78: the persistence loop of `refresh_rank` — for
every (target, rank) item of the reputation mapping whose target is a
Post, upsert the rank for (user, target). -/
def persist_ranks (rs : List Rating) (user : SessionId) (rep : List (GNode × ℚ)) :
    List Rating :=
  rep.foldl
    (fun rs tr =>
      match tr.1 with
      | GNode.post p => update_or_create_rank rs user p tr.2
      | GNode.user _ => rs)
    rs

/-- The persistent state touched by the endpoints: posts, the rating
table, and the per-session `CalcTime` rows (session, rank_calc_time). -/
structure DB where
  posts : List Post
  ratings : List Rating
  calcTimes : List (SessionId × ℤ)
deriving DecidableEq, Repr

/-- views.py line 50, verbatim: `obj.rank_calc_time + timedelta(hours=1)
> timezone.now()` (times in seconds). -/
def cache_expired (rank_calc_time now : ℤ) : Bool :=
  decide (rank_calc_time + 3600 > now)

/-- views.py lines 49-52: the gate of `refresh_rank`.  `rec` is the
existing CalcTime timestamp for the session (`none` means the row was
just created, i.e. `created = True`).  Returns `true` exactly when the
function returns the persisted snapshot without rebuilding the graph:
`if not cache_expired and not created and not settings.RANK_DEBUG`. -/
def refresh_skips_recompute (rec : Option ℤ) (now : ℤ) (rank_debug : Bool) : Bool :=
  match rec with
  | some t => !cache_expired t now && !rank_debug
  | none => false

/-- views.py lines 100-114 (`multi_annotate`), rank half:
`Coalesce(Subquery(... .values('rank')), 0.0)` — the rank annotated onto
post `p` for viewer `u`; a missing row or a null rank both become 0. -/
def annotRank (rs : List Rating) (u : SessionId) (p : Post) : ℚ :=
  ((findRating rs u p.id).bind Rating.rank).getD 0

/-- views.py lines 109-113 (`multi_annotate`), vote half: a bare
`Subquery(... .values('vote'))` with no coalescing — `none` when the
(u, p) row is absent. -/
def annotVote (rs : List Rating) (u : SessionId) (p : Post) : Option ℤ :=
  (findRating rs u p.id).map Rating.vote

/-- views.py line 139: the thread visibility filter of `list_threads` —
`filter(Q(session=request.session.session_key) | Q(rank__gt=0))`. -/
def list_threads_filter (rs : List Rating) (viewer : SessionId) (threads : List Post) :
    List Post :=
  threads.filter (fun p => decide (p.session = viewer ∨ 0 < annotRank rs viewer p))

/-- views.py lines 149-150 and 187: the in-thread post filter of both
`list_threads` and `get_thread` — `.exclude(rank__lt=SHADOWBAN_THRESHOLD)`. -/
def thread_posts_filter (rs : List Rating) (viewer : SessionId) (posts : List Post) :
    List Post :=
  posts.filter (fun p => decide (¬ annotRank rs viewer p < SHADOWBAN_THRESHOLD))

/-- views.py lines 303-312 (`post_vote`): look up the target post (Django
`.get` raises on a missing post, modelled as `none`), `get_or_create` the
(u, t) Rating row, and when the vote request parameter is non-empty add
+1 to the stored vote if its integer value equals 1 and -1 otherwise,
returning the new total.  `voteParam` is `none` for an empty parameter
string and `some v` for a non-empty string parsing to the integer v. -/
def post_vote (db : DB) (u : SessionId) (t : PostId) (voteParam : Option ℤ) :
    Option (DB × Option ℤ) :=
  if db.posts.any (fun p => decide (p.id = t)) then
    let found := findRating db.ratings u t
    let rs1 := match found with
      | some _ => db.ratings
      | none => db.ratings ++ [Rating.mk u t none 0]
    let r := match found with
      | some r => r
      | none => Rating.mk u t none 0
    match voteParam with
    | none => some (DB.mk db.posts rs1 db.calcTimes, none)
    | some v =>
      let newVote := r.vote + (if v = 1 then 1 else -1)
      some (DB.mk db.posts (setVoteFirst rs1 u t newVote) db.calcTimes, some newVote)
  else none

/-! Lemmas about edge insertion and lookup. -/

theorem ekey_triple (u v : GNode) (w : ℤ) : ekey u v (u, v, w) = true := by
  simp [ekey]

theorem ekey_eq_true_iff (u v : GNode) (e : Edge) :
    ekey u v e = true ↔ e.1 = u ∧ e.2.1 = v := by
  simp [ekey]

theorem find?_map_overwrite (u v : GNode) (w : ℤ) (es : List Edge)
    (h : es.any (ekey u v) = true) :
    (es.map (fun e => if ekey u v e then (u, v, w) else e)).find? (ekey u v) =
      some (u, v, w) := by
  induction es with
  | nil => simp at h
  | cons e es ih =>
    by_cases he : ekey u v e = true
    · simp only [List.map_cons, if_pos he]
      rw [List.find?_cons_of_pos _ (ekey_triple u v w)]
    · simp only [List.map_cons, if_neg he]
      rw [List.find?_cons_of_neg _ he]
      have h' : es.any (ekey u v) = true := by
        rcases List.any_eq_true.1 h with ⟨x, hx, hpx⟩
        rcases List.mem_cons.1 hx with rfl | hx2
        · exact absurd hpx he
        · exact List.any_eq_true.2 ⟨x, hx2, hpx⟩
      exact ih h'

theorem edgeW_addEdge_same (es : List Edge) (u v : GNode) (w : ℤ) :
    edgeW (addEdge es u v w) u v = some w := by
  unfold edgeW addEdge
  by_cases h : es.any (ekey u v) = true
  · rw [if_pos h, find?_map_overwrite u v w es h]
    rfl
  · rw [if_neg h, List.find?_append]
    have hn : es.find? (ekey u v) = none :=
      List.find?_eq_none.2 (fun x hx hpx => h (List.any_eq_true.2 ⟨x, hx, hpx⟩))
    rw [hn, List.find?_cons_of_pos _ (ekey_triple u v w)]
    rfl

theorem find?_map_overwrite_ne (u v u' v' : GNode) (w : ℤ) (es : List Edge)
    (hne : ¬(u' = u ∧ v' = v)) :
    ((es.map (fun e => if ekey u' v' e then (u', v', w) else e)).find? (ekey u v)).map
        (fun e => e.2.2) =
      (es.find? (ekey u v)).map (fun e => e.2.2) := by
  induction es with
  | nil => rfl
  | cons e es ih =>
    by_cases he : ekey u' v' e = true
    · have h1 : e.1 = u' ∧ e.2.1 = v' := (ekey_eq_true_iff _ _ _).1 he
      have h2 : ekey u v e = false := by
        simp only [ekey, h1.1, h1.2, decide_eq_false_iff_not]
        exact hne
      have h3 : ekey u v (u', v', w) = false := by
        simp only [ekey, decide_eq_false_iff_not]
        exact hne
      simp only [List.map_cons, if_pos he]
      rw [List.find?_cons_of_neg _ (by rw [h3]; exact Bool.false_ne_true),
        List.find?_cons_of_neg _ (by rw [h2]; exact Bool.false_ne_true)]
      exact ih
    · simp only [List.map_cons, if_neg he]
      by_cases hk : ekey u v e = true
      · rw [List.find?_cons_of_pos _ hk, List.find?_cons_of_pos _ hk]
      · rw [List.find?_cons_of_neg _ hk, List.find?_cons_of_neg _ hk]
        exact ih

theorem edgeW_addEdge_ne (es : List Edge) (u v u' v' : GNode) (w : ℤ)
    (hne : ¬(u' = u ∧ v' = v)) :
    edgeW (addEdge es u' v' w) u v = edgeW es u v := by
  unfold edgeW addEdge
  by_cases h : es.any (ekey u' v') = true
  · rw [if_pos h]
    exact find?_map_overwrite_ne u v u' v' w es hne
  · rw [if_neg h, List.find?_append]
    have hn : List.find? (ekey u v) [(u', v', w)] = none := by
      rw [List.find?_cons_of_neg]
      · rfl
      · have : ekey u v (u', v', w) = false := by
          simp only [ekey, decide_eq_false_iff_not]
          exact hne
        rw [this]
        exact Bool.false_ne_true
    rw [hn, Option.or_none]

/-! Lemmas about the graph build folds. -/

theorem edgeW_postsFold (posts : List Post) (es : List Edge) (s : SessionId) (i : PostId) :
    edgeW (posts.foldl addPostEdges es) (GNode.user s) (GNode.post i) =
      if posts.any (fun p => decide (p.session = s ∧ p.id = i)) then some MINIMAL_AUTHOR_VOTE
      else edgeW es (GNode.user s) (GNode.post i) := by
  induction posts generalizing es with
  | nil => rfl
  | cons p posts ih =>
    rw [List.foldl_cons, ih]
    by_cases hp : p.session = s ∧ p.id = i
    · have hany : (p :: posts).any (fun p => decide (p.session = s ∧ p.id = i)) = true := by
        rw [List.any_cons, decide_eq_true hp, Bool.true_or]
      rw [if_pos hany]
      by_cases ht : posts.any (fun p => decide (p.session = s ∧ p.id = i)) = true
      · rw [if_pos ht]
      · rw [if_neg ht]
        unfold addPostEdges
        rw [hp.1, hp.2]
        exact edgeW_addEdge_same _ _ _ _
    · have hpd : (decide (p.session = s ∧ p.id = i)) = false := decide_eq_false hp
      rw [List.any_cons, hpd, Bool.false_or]
      by_cases ht : posts.any (fun p => decide (p.session = s ∧ p.id = i)) = true
      · rw [if_pos ht, if_pos ht]
      · rw [if_neg ht, if_neg ht]
        unfold addPostEdges
        rw [edgeW_addEdge_ne _ _ _ _ _ _ (by
          simp only [GNode.user.injEq, GNode.post.injEq]
          exact hp)]
        rw [edgeW_addEdge_ne _ _ _ _ _ _ (fun hc => by simp at hc)]

theorem edgeW_ratingsFold (ratings : List Rating) (es : List Edge) (u : SessionId) (t : PostId)
    (hu : RatingsUnique ratings) :
    edgeW (ratings.foldl addRatingEdge es) (GNode.user u) (GNode.post t) =
      (match findRating ratings u t with
        | some r => some (voteWeight r.vote)
        | none => edgeW es (GNode.user u) (GNode.post t)) := by
  induction ratings generalizing es with
  | nil => rfl
  | cons r ratings ih =>
    have h1 := (List.pairwise_cons.1 hu).1
    have h2 : RatingsUnique ratings := (List.pairwise_cons.1 hu).2
    rw [List.foldl_cons, ih _ h2]
    by_cases hk : ratingKey u t r = true
    · have hk' : r.user = u ∧ r.target = t := by simpa [ratingKey] using hk
      have hnone : findRating ratings u t = none := by
        apply List.find?_eq_none.2
        intro b hb hpb
        have hb' : b.user = u ∧ b.target = t := by simpa [ratingKey] using hpb
        exact h1 b hb ⟨hk'.1.trans hb'.1.symm, hk'.2.trans hb'.2.symm⟩
      have hsome : findRating (r :: ratings) u t = some r := by
        unfold findRating
        rw [List.find?_cons_of_pos _ hk]
      rw [hnone, hsome]
      unfold addRatingEdge
      rw [hk'.1, hk'.2]
      exact edgeW_addEdge_same es (GNode.user u) (GNode.post t) (voteWeight r.vote)
    · have hfind : findRating (r :: ratings) u t = findRating ratings u t := by
        unfold findRating
        rw [List.find?_cons_of_neg _ hk]
      rw [hfind]
      cases hf : findRating ratings u t with
      | some b => rfl
      | none =>
        unfold addRatingEdge
        apply edgeW_addEdge_ne
        simp only [GNode.user.injEq, GNode.post.injEq]
        intro hc
        exact hk (by simp [ratingKey, hc.1, hc.2])

theorem findRating_self (rs : List Rating) (r : Rating) (hu : RatingsUnique rs) (hr : r ∈ rs) :
    findRating rs r.user r.target = some r := by
  induction rs with
  | nil => simp at hr
  | cons h tl ih =>
    have hp := List.pairwise_cons.1 hu
    rcases List.mem_cons.1 hr with rfl | htl
    · unfold findRating
      rw [List.find?_cons_of_pos _ (by simp [ratingKey])]
    · have hk : ¬ ratingKey r.user r.target h = true := by
        simp only [ratingKey, decide_eq_true_eq]
        intro hc
        exact hp.1 r htl ⟨hc.1, hc.2⟩
      unfold findRating
      rw [List.find?_cons_of_neg _ hk]
      exact ih hp.2 htl

/-! Lemmas about the rating table operations. -/

theorem voteOf_setRankFirst (rs : List Rating) (u : SessionId) (t : PostId) (rk : ℚ)
    (u' : SessionId) (t' : PostId) :
    voteOf (setRankFirst rs u t rk) u' t' = voteOf rs u' t' := by
  induction rs with
  | nil => rfl
  | cons r tl ih =>
    unfold setRankFirst
    by_cases hk : ratingKey u t r = true
    · rw [if_pos hk]
      unfold voteOf findRating
      by_cases hk' : ratingKey u' t' r = true
      · rw [List.find?_cons_of_pos _ (show ratingKey u' t'
            (Rating.mk r.user r.target (some rk) r.vote) = true by
              simpa [ratingKey] using hk'), List.find?_cons_of_pos _ hk']
        rfl
      · rw [List.find?_cons_of_neg _ (show ¬ ratingKey u' t'
            (Rating.mk r.user r.target (some rk) r.vote) = true by
              simpa [ratingKey] using hk'), List.find?_cons_of_neg _ hk']
    · rw [if_neg hk]
      unfold voteOf findRating
      by_cases hk' : ratingKey u' t' r = true
      · rw [List.find?_cons_of_pos _ hk', List.find?_cons_of_pos _ hk']
      · rw [List.find?_cons_of_neg _ hk', List.find?_cons_of_neg _ hk']
        exact ih

theorem rankOf_setVoteFirst (rs : List Rating) (u : SessionId) (t : PostId) (v : ℤ)
    (u' : SessionId) (t' : PostId) :
    rankOf (setVoteFirst rs u t v) u' t' = rankOf rs u' t' := by
  induction rs with
  | nil => rfl
  | cons r tl ih =>
    unfold setVoteFirst
    by_cases hk : ratingKey u t r = true
    · rw [if_pos hk]
      unfold rankOf findRating
      by_cases hk' : ratingKey u' t' r = true
      · rw [List.find?_cons_of_pos _ (show ratingKey u' t'
            (Rating.mk r.user r.target r.rank v) = true by
              simpa [ratingKey] using hk'), List.find?_cons_of_pos _ hk']
        rfl
      · rw [List.find?_cons_of_neg _ (show ¬ ratingKey u' t'
            (Rating.mk r.user r.target r.rank v) = true by
              simpa [ratingKey] using hk'), List.find?_cons_of_neg _ hk']
    · rw [if_neg hk]
      unfold rankOf findRating
      by_cases hk' : ratingKey u' t' r = true
      · rw [List.find?_cons_of_pos _ hk', List.find?_cons_of_pos _ hk']
      · rw [List.find?_cons_of_neg _ hk', List.find?_cons_of_neg _ hk']
        exact ih

theorem voteOf_setVoteFirst_self (rs : List Rating) (u : SessionId) (t : PostId) (v : ℤ)
    (h : (findRating rs u t).isSome = true) :
    voteOf (setVoteFirst rs u t v) u t = some v := by
  induction rs with
  | nil => simp [findRating] at h
  | cons r tl ih =>
    unfold setVoteFirst
    by_cases hk : ratingKey u t r = true
    · rw [if_pos hk]
      unfold voteOf findRating
      rw [List.find?_cons_of_pos _ (show ratingKey u t
          (Rating.mk r.user r.target r.rank v) = true by simpa [ratingKey] using hk)]
      rfl
    · rw [if_neg hk]
      unfold voteOf findRating
      rw [List.find?_cons_of_neg _ hk]
      apply ih
      unfold findRating at h
      rw [List.find?_cons_of_neg _ hk] at h
      exact h

theorem findRating_append_left (rs l : List Rating) (u : SessionId) (t : PostId)
    (h : (findRating rs u t).isSome = true) :
    findRating (rs ++ l) u t = findRating rs u t := by
  unfold findRating at h ⊢
  rw [List.find?_append]
  cases hf : List.find? (ratingKey u t) rs with
  | some b => rfl
  | none => rw [hf] at h; simp at h

theorem rankOf_append_left (rs l : List Rating) (u : SessionId) (t : PostId)
    (h : (findRating rs u t).isSome = true) :
    rankOf (rs ++ l) u t = rankOf rs u t := by
  unfold rankOf
  rw [findRating_append_left rs l u t h]

theorem voteOf_append_left (rs l : List Rating) (u : SessionId) (t : PostId)
    (h : (findRating rs u t).isSome = true) :
    voteOf (rs ++ l) u t = voteOf rs u t := by
  unfold voteOf
  rw [findRating_append_left rs l u t h]

theorem voteOf_update_or_create_rank (rs : List Rating) (u : SessionId) (t : PostId) (rk : ℚ)
    (u' : SessionId) (t' : PostId) (h : (findRating rs u' t').isSome = true) :
    voteOf (update_or_create_rank rs u t rk) u' t' = voteOf rs u' t' := by
  unfold update_or_create_rank
  by_cases hf : (findRating rs u t).isSome = true
  · rw [if_pos hf]
    exact voteOf_setRankFirst rs u t rk u' t'
  · rw [if_neg hf]
    exact voteOf_append_left rs _ u' t' h

theorem findRating_update_or_create_isSome (rs : List Rating) (u : SessionId) (t : PostId)
    (rk : ℚ) (u' : SessionId) (t' : PostId) (h : (findRating rs u' t').isSome = true) :
    (findRating (update_or_create_rank rs u t rk) u' t').isSome = true := by
  have hv := voteOf_update_or_create_rank rs u t rk u' t' h
  unfold voteOf at hv
  cases hf : findRating (update_or_create_rank rs u t rk) u' t' with
  | some b => rfl
  | none =>
    rw [hf] at hv
    cases hg : findRating rs u' t' with
    | some b => rw [hg] at hv; simp at hv
    | none => rw [hg] at h; simp at h

theorem voteOf_persist_ranks (rep : List (GNode × ℚ)) (rs : List Rating) (user : SessionId)
    (u' : SessionId) (t' : PostId) (h : (findRating rs u' t').isSome = true) :
    voteOf (persist_ranks rs user rep) u' t' = voteOf rs u' t' := by
  induction rep generalizing rs with
  | nil => rfl
  | cons tr rep ih =>
    obtain ⟨n, q⟩ := tr
    cases n with
    | user s =>
      show voteOf (persist_ranks rs user rep) u' t' = voteOf rs u' t'
      exact ih rs h
    | post p =>
      show voteOf (persist_ranks (update_or_create_rank rs user p q) user rep) u' t' =
        voteOf rs u' t'
      rw [ih _ (findRating_update_or_create_isSome rs user p q u' t' h)]
      exact voteOf_update_or_create_rank rs user p q u' t' h

theorem findRating_rs1_isSome (rs : List Rating) (u : SessionId) (t : PostId) :
    (findRating (match findRating rs u t with
      | some _ => rs
      | none => rs ++ [Rating.mk u t none 0]) u t).isSome = true := by
  cases hf : findRating rs u t with
  | some r => rw [hf]; rfl
  | none =>
    unfold findRating at hf ⊢
    rw [List.find?_append, hf, List.find?_cons_of_pos _ (show ratingKey u t
      (Rating.mk u t none 0) = true by simp [ratingKey])]
    rfl

theorem post_vote_some_char (db : DB) (u : SessionId) (t : PostId) (v : ℤ)
    (hp : db.posts.any (fun p => decide (p.id = t)) = true) :
    post_vote db u t (some v) =
      some (DB.mk db.posts
          (setVoteFirst (match findRating db.ratings u t with
              | some _ => db.ratings
              | none => db.ratings ++ [Rating.mk u t none 0]) u t
            (voteOrZero db.ratings u t + (if v = 1 then 1 else -1)))
          db.calcTimes,
        some (voteOrZero db.ratings u t + (if v = 1 then 1 else -1))) := by
  unfold post_vote voteOrZero
  rw [if_pos hp]
  cases hf : findRating db.ratings u t with
  | some r => rfl
  | none => rfl

theorem post_vote_none_char (db : DB) (u : SessionId) (t : PostId)
    (hp : db.posts.any (fun p => decide (p.id = t)) = true) :
    post_vote db u t none =
      some (DB.mk db.posts
          (match findRating db.ratings u t with
            | some _ => db.ratings
            | none => db.ratings ++ [Rating.mk u t none 0])
          db.calcTimes, none) := by
  unfold post_vote
  rw [if_pos hp]

theorem rankOf_rs1 (rs : List Rating) (u : SessionId) (t : PostId)
    (u' : SessionId) (t' : PostId) (h : (findRating rs u' t').isSome = true) :
    rankOf (match findRating rs u t with
      | some _ => rs
      | none => rs ++ [Rating.mk u t none 0]) u' t' = rankOf rs u' t' := by
  cases hf : findRating rs u t with
  | some r => rfl
  | none => exact rankOf_append_left rs _ u' t' h


/-! Theorems settling the claims. -/

/-- C1: the claim says `refresh_rank` returns the cached snapshot exactly when
the elapsed time since `last_computed` is strictly below the 1-hour TTL (and
the debug flag is off).  The code computes `cache_expired = rank_calc_time +
1h > now`, which is freshness, not expiry, so the gate is inverted: at elapsed
time 0 (well within TTL) it recomputes, and at elapsed time exactly one hour
(TTL expired) it returns the stale snapshot without recomputation. -/
theorem refresh_rank_ttl_gate_inverted :
    refresh_skips_recompute (some 0) 0 false = false ∧
    refresh_skips_recompute (some 0) 3600 false = true := by
  constructor <;> rfl

/-- C2 counterexample: a thread authored by session 1, viewed by session 0
with an empty rating table, has annotated rank 0, which is not strictly below
`SHADOWBAN_THRESHOLD`, and is not the viewer's own content — yet
`list_threads` excludes it (its filter requires rank strictly above 0). -/
theorem shadowban_claim_counterexample :
    ¬ annotRank [] 0 (Post.mk 10 1 none) < SHADOWBAN_THRESHOLD ∧
    (Post.mk 10 1 none).session ≠ 0 ∧
    (Post.mk 10 1 none) ∉ list_threads_filter [] 0 [Post.mk 10 1 none] := by
  refine ⟨?_, ?_, ?_⟩
  · have h : annotRank [] 0 (Post.mk 10 1 none) = 0 := rfl
    rw [h]
    norm_num [SHADOWBAN_THRESHOLD]
  · decide
  · have h : list_threads_filter [] 0 [Post.mk 10 1 none] = [] := by
      simp [list_threads_filter, annotRank, findRating]
    rw [h]
    exact List.not_mem_nil _

/-- C2 (amended): the thread listing includes a candidate thread exactly when
it is the viewer's own or its annotated rank is strictly greater than 0, and
the in-thread post listings include a post exactly when its annotated rank is
at least `SHADOWBAN_THRESHOLD`, with no exception for the viewer's own posts. -/
theorem listing_filters_exact (rs : List Rating) (viewer : SessionId) (ts ps : List Post)
    (p : Post) :
    (p ∈ list_threads_filter rs viewer ts ↔
      p ∈ ts ∧ (p.session = viewer ∨ 0 < annotRank rs viewer p)) ∧
    (p ∈ thread_posts_filter rs viewer ps ↔
      p ∈ ps ∧ SHADOWBAN_THRESHOLD ≤ annotRank rs viewer p) := by
  constructor
  · simp [list_threads_filter, List.mem_filter]
  · simp [thread_posts_filter, List.mem_filter, not_lt]

/-- C3: for every Rating row, the built graph carries an actor-to-content
edge whose weight is the vote itself when non-negative and the vote times
`NEGATIVE_VOTE_AMPLIFICATION_COEFFICIENT` (10) when negative; hence the
absolute weight of a -1 vote is exactly 10 times that of a +1 vote. -/
theorem vote_edge_weight_amplified (posts : List Post) (ratings : List Rating) (r : Rating)
    (hr : r ∈ ratings) (hu : RatingsUnique ratings) :
    edgeW (buildGraph posts ratings) (GNode.user r.user) (GNode.post r.target) =
      some (if 0 ≤ r.vote then r.vote
        else r.vote * NEGATIVE_VOTE_AMPLIFICATION_COEFFICIENT) ∧
    (voteWeight (-1)).natAbs = 10 * (voteWeight 1).natAbs := by
  constructor
  · unfold buildGraph
    rw [edgeW_ratingsFold ratings _ r.user r.target hu, findRating_self ratings r hu hr]
    rfl
  · decide

/-- C3 witness: a single -1 vote of session 4 on post 5 yields the edge
weight -10 in the built graph. -/
theorem vote_edge_weight_amplified_witness :
    edgeW (buildGraph [] [Rating.mk 4 5 none (-1)]) (GNode.user 4) (GNode.post 5) =
      some (-10) ∧
    (voteWeight (-1)).natAbs = 10 * (voteWeight 1).natAbs := by
  have h := vote_edge_weight_amplified [] [Rating.mk 4 5 none (-1)] (Rating.mk 4 5 none (-1))
    (by simp) (by simp [RatingsUnique])
  refine ⟨?_, h.2⟩
  rw [h.1]
  norm_num [NEGATIVE_VOTE_AMPLIFICATION_COEFFICIENT]

/-- C4: in the built graph, each post has an incoming edge from its creator
whose weight is `MINIMAL_AUTHOR_VOTE`, unless the creator's own Rating row on
that post exists, in which case that vote's computed weight replaces it. -/
theorem author_edge_weight (posts : List Post) (ratings : List Rating) (p : Post)
    (hp : p ∈ posts) (hu : RatingsUnique ratings) :
    edgeW (buildGraph posts ratings) (GNode.user p.session) (GNode.post p.id) =
      some (match findRating ratings p.session p.id with
        | some r => voteWeight r.vote
        | none => MINIMAL_AUTHOR_VOTE) := by
  unfold buildGraph
  rw [edgeW_ratingsFold ratings _ p.session p.id hu]
  cases hf : findRating ratings p.session p.id with
  | some r => rfl
  | none =>
    rw [edgeW_postsFold posts [] p.session p.id,
      if_pos (List.any_eq_true.2 ⟨p, hp, by simp⟩)]

/-- C4 witness: with no ratings, the creator edge of post 5 (by session 3)
has weight `MINIMAL_AUTHOR_VOTE`; with a -1 self-vote it has weight -10. -/
theorem author_edge_weight_witness :
    edgeW (buildGraph [Post.mk 5 3 none] []) (GNode.user 3) (GNode.post 5) =
      some MINIMAL_AUTHOR_VOTE ∧
    edgeW (buildGraph [Post.mk 5 3 none] [Rating.mk 3 5 none (-1)]) (GNode.user 3)
      (GNode.post 5) = some (-10) := by
  constructor
  · exact author_edge_weight [Post.mk 5 3 none] [] (Post.mk 5 3 none)
      (by simp) (by simp [RatingsUnique])
  · have h := author_edge_weight [Post.mk 5 3 none] [Rating.mk 3 5 none (-1)]
      (Post.mk 5 3 none) (by simp) (by simp [RatingsUnique])
    rw [h]
    norm_num [findRating, ratingKey, voteWeight, NEGATIVE_VOTE_AMPLIFICATION_COEFFICIENT]

/-- C5: the rank-persisting step of `refresh_rank` never changes the vote
field of any pre-existing RankEntry, and `post_vote` never changes the rank
field of any pre-existing RankEntry. -/
theorem rank_vote_field_separation :
    (∀ (rs : List Rating) (user : SessionId) (rep : List (GNode × ℚ))
        (u' : SessionId) (t' : PostId), (findRating rs u' t').isSome = true →
        voteOf (persist_ranks rs user rep) u' t' = voteOf rs u' t') ∧
    (∀ (db : DB) (u : SessionId) (t : PostId) (vp : Option ℤ) (db' : DB) (resp : Option ℤ),
        post_vote db u t vp = some (db', resp) →
        ∀ (u' : SessionId) (t' : PostId), (findRating db.ratings u' t').isSome = true →
          rankOf db'.ratings u' t' = rankOf db.ratings u' t') := by
  constructor
  · exact fun rs user rep u' t' h => voteOf_persist_ranks rep rs user u' t' h
  · intro db u t vp db' resp hpv u' t' h
    by_cases hp : db.posts.any (fun p => decide (p.id = t)) = true
    · cases vp with
      | none =>
        rw [post_vote_none_char db u t hp] at hpv
        injection hpv with hpair
        injection hpair with hdb hresp
        subst hdb
        exact rankOf_rs1 db.ratings u t u' t' h
      | some v =>
        rw [post_vote_some_char db u t v hp] at hpv
        injection hpv with hpair
        injection hpair with hdb hresp
        subst hdb
        have h1 := rankOf_setVoteFirst (match findRating db.ratings u t with
            | some _ => db.ratings
            | none => db.ratings ++ [Rating.mk u t none 0]) u t
            (voteOrZero db.ratings u t + (if v = 1 then 1 else -1)) u' t'
        exact h1.trans (rankOf_rs1 db.ratings u t u' t' h)
    · unfold post_vote at hpv
      rw [if_neg hp] at hpv
      exact absurd hpv (by simp)

/-- C5 witness: persisting a rank for (0, 5) keeps the stored vote 7, and
an upvote on (0, 5) keeps the stored rank 2. -/
theorem rank_vote_field_separation_witness :
    voteOf (persist_ranks [Rating.mk 0 5 (some 2) 7] 0 [(GNode.post 5, 9)]) 0 5 =
      voteOf [Rating.mk 0 5 (some 2) 7] 0 5 ∧
    rankOf (DB.mk [Post.mk 5 1 none] [Rating.mk 0 5 (some 2) 8] []).ratings 0 5 =
      rankOf (DB.mk [Post.mk 5 1 none] [Rating.mk 0 5 (some 2) 7] []).ratings 0 5 :=
  ⟨rank_vote_field_separation.1 [Rating.mk 0 5 (some 2) 7] 0 [(GNode.post 5, 9)] 0 5 rfl,
   rank_vote_field_separation.2 (DB.mk [Post.mk 5 1 none] [Rating.mk 0 5 (some 2) 7] [])
     0 5 (some 1) (DB.mk [Post.mk 5 1 none] [Rating.mk 0 5 (some 2) 8] []) (some 8)
     rfl 0 5 rfl⟩

/-- C6: the reputation mapping of `calc_rep` never contains an entry keyed by
the seed node and contains one for every other node of the graph. -/
theorem calc_rep_excludes_seed (compute : GNode → GNode → ℚ) (graph : List Edge)
    (seed : GNode) :
    seed ∉ (calc_rep compute graph seed).map Prod.fst ∧
    ∀ n ∈ graphNodes graph, n ≠ seed →
      n ∈ (calc_rep compute graph seed).map Prod.fst := by
  constructor
  · intro hmem
    rcases List.mem_map.1 hmem with ⟨pair, hpair, hfst⟩
    rcases List.mem_filterMap.1 hpair with ⟨n, hn, heq⟩
    by_cases hs : n = seed
    · rw [if_pos hs] at heq
      exact absurd heq (by simp)
    · rw [if_neg hs] at heq
      injection heq with heq2
      rw [← heq2] at hfst
      exact hs hfst
  · intro n hn hs
    exact List.mem_map.2 ⟨(n, compute seed n),
      List.mem_filterMap.2 ⟨n, hn, by rw [if_neg hs]⟩, rfl⟩

/-- C6 witness: on the one-edge graph user 0 -> post 5 with seed user 0,
the mapping keys contain post 5 but not the seed. -/
theorem calc_rep_excludes_seed_witness :
    GNode.user 0 ∉
      (calc_rep (fun _ _ => 0) [(GNode.user 0, GNode.post 5, 1)]
        (GNode.user 0)).map Prod.fst ∧
    GNode.post 5 ∈
      (calc_rep (fun _ _ => 0) [(GNode.user 0, GNode.post 5, 1)]
        (GNode.user 0)).map Prod.fst :=
  ⟨(calc_rep_excludes_seed (fun _ _ => 0) [(GNode.user 0, GNode.post 5, 1)]
      (GNode.user 0)).1,
   (calc_rep_excludes_seed (fun _ _ => 0) [(GNode.user 0, GNode.post 5, 1)]
      (GNode.user 0)).2 (GNode.post 5) (by decide) (by decide)⟩

/-- C7: when no Rating row exists for (viewer, post), the annotated rank read
back for display is exactly 0, never null. -/
theorem absent_rank_reads_zero (rs : List Rating) (u : SessionId) (p : Post)
    (h : findRating rs u p.id = none) :
    annotRank rs u p = 0 := by
  unfold annotRank
  rw [h]
  rfl

/-- C7 witness: with an empty rating table the annotated rank is 0. -/
theorem absent_rank_reads_zero_witness :
    annotRank [] 0 (Post.mk 3 1 none) = 0 :=
  absent_rank_reads_zero [] 0 (Post.mk 3 1 none) rfl

/-- C8: with the target post present and delta in plus or minus 1, `post_vote`
adds delta to the stored vote (0 when the row is absent), persists it, returns
the new total, and leaves posts and CalcTime rows untouched (no graph
recompute is triggered). -/
theorem post_vote_additive_no_recompute (db : DB) (u : SessionId) (t : PostId) (delta : ℤ)
    (hd : delta = 1 ∨ delta = -1)
    (ht : db.posts.any (fun p => decide (p.id = t)) = true) :
    ∃ rs' : List Rating,
      post_vote db u t (some delta) =
        some (DB.mk db.posts rs' db.calcTimes,
          some (voteOrZero db.ratings u t + delta)) ∧
      voteOf rs' u t = some (voteOrZero db.ratings u t + delta) := by
  have hdelta : (if delta = 1 then (1 : ℤ) else -1) = delta := by
    rcases hd with rfl | rfl
    · rfl
    · rfl
  refine ⟨setVoteFirst (match findRating db.ratings u t with
      | some _ => db.ratings
      | none => db.ratings ++ [Rating.mk u t none 0]) u t
      (voteOrZero db.ratings u t + delta), ?_, ?_⟩
  · rw [post_vote_some_char db u t delta ht, hdelta]
  · exact voteOf_setVoteFirst_self _ u t _ (findRating_rs1_isSome db.ratings u t)

/-- C8 witness: a -1 vote by session 0 on post 5 with an empty rating table
creates the row and returns total -1. -/
theorem post_vote_additive_no_recompute_witness :
    ∃ rs' : List Rating,
      post_vote (DB.mk [Post.mk 5 1 none] [] []) 0 5 (some (-1)) =
        some (DB.mk [Post.mk 5 1 none] rs' [], some (voteOrZero [] 0 5 + -1)) ∧
      voteOf rs' 0 5 = some (voteOrZero [] 0 5 + -1) :=
  post_vote_additive_no_recompute (DB.mk [Post.mk 5 1 none] [] []) 0 5 (-1)
    (Or.inr rfl) rfl

/-- C9: `post_vote` adds +1 exactly when the integer value of the vote
parameter equals 1 and -1 for every other integer value; the delta is never
validated to lie in plus or minus 1. -/
theorem post_vote_delta_unvalidated (db : DB) (u : SessionId) (t : PostId) (v : ℤ)
    (ht : db.posts.any (fun p => decide (p.id = t)) = true) :
    ∃ db' : DB, post_vote db u t (some v) =
      some (db', some (voteOrZero db.ratings u t + (if v = 1 then 1 else -1))) :=
  ⟨_, post_vote_some_char db u t v ht⟩

/-- C9 witness: a vote parameter of 2 counts as a downvote (-1). -/
theorem post_vote_delta_unvalidated_witness :
    ∃ db' : DB, post_vote (DB.mk [Post.mk 5 1 none] [] []) 0 5 (some 2) =
      some (db', some (voteOrZero [] 0 5 + -1)) :=
  post_vote_delta_unvalidated (DB.mk [Post.mk 5 1 none] [] []) 0 5 2 rfl

/-- C10: annotating a post for a viewer with no Rating row coalesces the rank
to 0 but leaves the vote null. -/
theorem absent_rank_zero_vote_null (rs : List Rating) (u : SessionId) (p : Post)
    (h : findRating rs u p.id = none) :
    annotRank rs u p = 0 ∧ annotVote rs u p = none := by
  unfold annotRank annotVote
  rw [h]
  exact ⟨rfl, rfl⟩

/-- C10 witness: with an empty rating table the annotated rank is 0 and the
annotated vote is null. -/
theorem absent_rank_zero_vote_null_witness :
    annotRank [] 0 (Post.mk 3 1 none) = 0 ∧ annotVote [] 0 (Post.mk 3 1 none) = none :=
  absent_rank_zero_vote_null [] 0 (Post.mk 3 1 none) rfl

end Mboard
